import Mathlib

/-!
Verification of the pymantic specification against the repository.

The repository ships only `setup.py` under `src/`; the parser, term model,
quad store and serializer described by the specification are not present in
the source tree.  Following the spec, those components are modelled here as
executable Lean definitions (each such definition carries a doc comment
starting with `Modelled from the spec:`), and the claims are settled against
this model.  `setup.py` itself is embedded directly from the source.
-/

namespace Pymantic

/-- Modelled from the spec: the Term Model (§3) — a closed tagged variant of
IRI, blank node (identified by a document-scoped numeric identity) and
literal (value string, optional language tag, optional datatype IRI). -/
inductive Term where
  | iri (s : String)
  | blank (n : Nat)
  | literal (value : String) (lang : Option String) (datatype : Option String)
deriving DecidableEq, Repr

/-- Modelled from the spec: a Quad (§3) — a triple plus an optional graph
name, `none` meaning the default graph. -/
structure Quad where
  subj : Term
  pred : Term
  obj : Term
  graph : Option Term
deriving DecidableEq, Repr

/-- Modelled from the spec: the character of one decimal digit, used to
render the numeric part of a rewritten blank-node label (§4.4). -/
def digitChar : Nat → Char
  | 0 => '0' | 1 => '1' | 2 => '2' | 3 => '3' | 4 => '4'
  | 5 => '5' | 6 => '6' | 7 => '7' | 8 => '8' | _ => '9'

/-- Numeric value of a decimal digit character (left inverse of `digitChar`
on digits below ten). -/
def digitVal (c : Char) : Nat :=
  if c = '0' then 0 else if c = '1' then 1 else if c = '2' then 2
  else if c = '3' then 3 else if c = '4' then 4 else if c = '5' then 5
  else if c = '6' then 6 else if c = '7' then 7 else if c = '8' then 8 else 9

/-- Modelled from the spec: decimal digit string of a natural number,
written with explicit fuel so that it is structurally recursive. -/
def decDigitsAux : Nat → Nat → List Char
  | 0, _ => []
  | fuel + 1, n =>
      if n < 10 then [digitChar n]
      else decDigitsAux fuel (n / 10) ++ [digitChar (n % 10)]

/-- Modelled from the spec: the decimal digit string of a natural number. -/
def decDigits (n : Nat) : List Char := decDigitsAux (n + 1) n

/-- Modelled from the spec: the blank-node label the serializer writes for
the blank node with identity `n` — unique within the output (§4.4). -/
def blankLabelOf (n : Nat) : String := String.mk ('b' :: decDigits n)

/-- Modelled from the spec: literal-string escaping for N-Quads (§4.4):
escape the double quote, backslash, newline, carriage return and tab. -/
def escapeChar (c : Char) : List Char :=
  if c = '"' then ['\\', '"']
  else if c = '\\' then ['\\', '\\']
  else if c = '\n' then ['\\', 'n']
  else if c = '\r' then ['\\', 'r']
  else if c = '\t' then ['\\', 't']
  else [c]

/-- Modelled from the spec: escaping of a literal value string (§4.4). -/
def escapeLit (s : String) : String :=
  String.mk (s.toList.flatMap escapeChar)

/-- Modelled from the spec: the N-Quads string form of a term (§4.4) —
IRIs fully expanded in angle brackets, blank nodes as `_:b<n>` labels
unique within the output, literals quoted with escaping and an optional
`@lang` or `^^<datatype>` suffix. -/
def formatTerm : Term → String
  | .iri s => "<" ++ s ++ ">"
  | .blank n => "_:" ++ blankLabelOf n
  | .literal v lang dt =>
      "\"" ++ escapeLit v ++ "\"" ++
      (match lang with
       | some l => "@" ++ l
       | none =>
         match dt with
         | some d => "^^<" ++ d ++ ">"
         | none => "")

/-- Modelled from the spec: the string form of an optional graph name;
the default graph contributes the empty string. -/
def formatGraph : Option Term → String
  | none => ""
  | some t => formatTerm t

/-- Modelled from the spec: one N-Quads line for one quad (§4.4). -/
def formatQuad (q : Quad) : String :=
  formatTerm q.subj ++ " " ++ formatTerm q.pred ++ " " ++ formatTerm q.obj ++
  (match q.graph with
   | none => ""
   | some g => " " ++ formatTerm g) ++ " ."

/-- Modelled from the spec: the sort key of a quad for the canonical order
(§4.3) — the (graph, subject, predicate, object) string forms, compared
lexicographically. -/
def quadKey (q : Quad) : List String :=
  [formatGraph q.graph, formatTerm q.subj, formatTerm q.pred, formatTerm q.obj]

/-- Modelled from the spec: the canonical total order on quads (§4.3),
lexicographic on the (graph, subject, predicate, object) string forms. -/
def quadLE (p q : Quad) : Prop :=
  quadKey p ≤ quadKey q

instance : DecidableRel quadLE := fun p q =>
  inferInstanceAs (Decidable (quadKey p ≤ quadKey q))

instance : IsTotal Quad quadLE :=
  ⟨fun p q => le_total (quadKey p) (quadKey q)⟩

instance : IsTrans Quad quadLE :=
  ⟨fun _ _ _ h h' => le_trans h h'⟩

/-- Modelled from the spec: the Graph/Quad Store (§3, §4.3) — an in-memory
collection of quads with set semantics and stable insertion order. -/
structure Store where
  quads : List Quad
deriving DecidableEq, Repr

/-- Modelled from the spec: the store created empty. -/
def Store.empty : Store := ⟨[]⟩

/-- Modelled from the spec: membership test `contains(quad) -> bool` (§4.3). -/
def Store.containsQ (st : Store) (q : Quad) : Bool :=
  decide (q ∈ st.quads)

/-- Modelled from the spec: `add(quad) -> bool` (§4.3) — true if newly
inserted, false if duplicate; duplicates collapse, insertion order is kept. -/
def Store.add (st : Store) (q : Quad) : Bool × Store :=
  if st.containsQ q then (false, st) else (true, ⟨st.quads ++ [q]⟩)

/-- Modelled from the spec: the canonical quad sequence of a store (§4.3) —
the quads sorted by the canonical total order. -/
def Store.canonicalQuads (st : Store) : List Quad :=
  st.quads.insertionSort quadLE

/-- Modelled from the spec: the N-Quads serialization of a store (§4.4) —
one line per quad, in canonical order. -/
def serialize (st : Store) : List String :=
  st.canonicalQuads.map formatQuad

/-- Modelled from the spec: the well-known rdf:nil IRI, the value of an
empty collection (§4.2). -/
def nilIRI : String := "http://www.w3.org/1999/02/22-rdf-syntax-ns#nil"

/-- Modelled from the spec: the rdf:first predicate used by collection
desugaring (§4.2). -/
def firstIRI : String := "http://www.w3.org/1999/02/22-rdf-syntax-ns#first"

/-- Modelled from the spec: the rdf:rest predicate used by collection
desugaring (§4.2). -/
def restIRI : String := "http://www.w3.org/1999/02/22-rdf-syntax-ns#rest"

/-- Modelled from the spec: the rdf:type IRI that the bare keyword `a`
expands to in predicate position (§4.2). -/
def typeIRI : String := "http://www.w3.org/1999/02/22-rdf-syntax-ns#type"

/-- Modelled from the spec: a raw (syntactic) term as written in the
document, before IRI resolution and blank-node identity assignment: an
IRIREF (possibly relative), a prefixed name, a labeled blank node, an
anonymous blank node `[]`, the keyword `a`, a literal (value, optional
language tag, optional datatype IRIREF), or a collection `( ... )`. -/
inductive RTerm where
  | iriRef (s : String)
  | pname (pre loc : String)
  | blankLabel (l : String)
  | anon
  | kwA
  | lit (value : String) (lang : Option String) (datatype : Option String)
  | collection (items : List RTerm)
deriving Repr

/-- Modelled from the spec: a statement of one document — a `@prefix`/
`PREFIX` directive, a `@base`/`BASE` directive, or a triple statement with
an optional enclosing named-graph annotation. -/
inductive Stmt where
  | prefixDecl (pre : String) (iriref : String)
  | baseDecl (iriref : String)
  | triple (s p o : RTerm) (g : Option RTerm)
deriving Repr

/-- Modelled from the spec: the error taxonomy (§7). -/
inductive Err where
  | lexError
  | synError
  | resolutionError
  | unsupportedConstruct
deriving DecidableEq, Repr

/-- Modelled from the spec: the mutable Parse Context (§3) — current base
IRI, prefix table (later redefinition overwrites, modelled by consing so
lookup finds the most recent binding), blank-node label-to-identity map,
and the blank-node counter used for fresh identities. -/
structure Ctx where
  base : Option String
  prefixTable : List (String × String)
  labels : List (String × Nat)
  counter : Nat
deriving Repr

/-- Modelled from the spec: the Parse Context created at parse start. -/
def Ctx.init : Ctx := ⟨none, [], [], 0⟩

/-- Modelled from the spec: an IRI with a scheme is already absolute and is
never re-resolved (§4.2); modelled as containing a colon. -/
def hasScheme (s : String) : Bool :=
  s.toList.contains ':'

/-- Modelled from the spec: simplified reference resolution (§4.2) — the
relative reference is merged onto the base IRI's path up to and including
its last slash. -/
def resolveRef (b r : String) : String :=
  String.mk ((b.toList.reverse.dropWhile (fun c => c ≠ '/')).reverse) ++ r

/-- Modelled from the spec: IRI resolution (§4.2) — an absolute IRI is kept
as is; a relative IRI is resolved against the current base IRI, and it is a
`ResolutionError` when no base IRI is in scope (§7). -/
def resolveIRI (ctx : Ctx) (s : String) : Except Err String :=
  if hasScheme s then .ok s
  else match ctx.base with
    | none => .error .resolutionError
    | some b => .ok (resolveRef b s)

/-- First binding of a key in an association list; the parse context conses
new bindings, so the first match is the most recent one. -/
def findAssoc {α : Type} (k : String) : List (String × α) → Option α
  | [] => none
  | (k', v) :: rest => if k' = k then some v else findAssoc k rest

/-- Modelled from the spec: prefixed-name resolution (§3) — look up the
prefix in the active prefix table and concatenate the local part; an
undeclared prefix is a `ResolutionError`, never a silently-empty IRI. -/
def resolvePName (ctx : Ctx) (pre loc : String) : Except Err String :=
  match findAssoc pre ctx.prefixTable with
  | none => .error .resolutionError
  | some i => .ok (i ++ loc)

/-- Modelled from the spec: allocation of a fresh anonymous blank-node
identity, invisible to any label (§4.2). -/
def freshBlank (ctx : Ctx) : Term × Ctx :=
  (.blank ctx.counter, { ctx with counter := ctx.counter + 1 })

/-- Modelled from the spec: labeled blank-node resolution (§4.2) — the same
label resolves to the same identity everywhere within one document; a label
seen for the first time is bound to a fresh identity. -/
def lookupLabel (ctx : Ctx) (l : String) : Term × Ctx :=
  match findAssoc l ctx.labels with
  | some n => (.blank n, ctx)
  | none =>
      (.blank ctx.counter,
       { ctx with labels := (l, ctx.counter) :: ctx.labels,
                  counter := ctx.counter + 1 })

/-- Modelled from the spec: a triple before graph attachment, produced by
collection desugaring. -/
structure Tri where
  subj : Term
  pred : Term
  obj : Term
deriving DecidableEq, Repr

mutual

/-- Modelled from the spec: resolution of one raw term (§4.2) — returns the
resolved term, the auxiliary triples produced by collection desugaring, and
the updated context. -/
def resolveTerm (ctx : Ctx) : RTerm → Except Err (Term × List Tri × Ctx)
  | .iriRef s => (resolveIRI ctx s).map (fun i => (.iri i, [], ctx))
  | .pname p l => (resolvePName ctx p l).map (fun i => (.iri i, [], ctx))
  | .blankLabel l =>
      let (t, ctx1) := lookupLabel ctx l
      .ok (t, [], ctx1)
  | .anon =>
      let (t, ctx1) := freshBlank ctx
      .ok (t, [], ctx1)
  | .kwA => .ok (.iri typeIRI, [], ctx)
  | .lit v lang dt =>
      match dt with
      | none => .ok (.literal v lang none, [], ctx)
      | some d => (resolveIRI ctx d).map (fun i => (.literal v lang (some i), [], ctx))
  | .collection items => resolveColl ctx items

/-- Modelled from the spec: collection desugaring (§4.2) — an empty
collection is the nil constant; a non-empty collection becomes a chain of
fresh blank nodes linked by first/rest predicates terminated by nil, one
fresh node per member, with the member terms as the first-values in order. -/
def resolveColl (ctx : Ctx) : List RTerm → Except Err (Term × List Tri × Ctx)
  | [] => .ok (.iri nilIRI, [], ctx)
  | t :: ts => do
      let (cell, ctx1) := freshBlank ctx
      let (tm, aux1, ctx2) ← resolveTerm ctx1 t
      let (restTm, aux2, ctx3) ← resolveColl ctx2 ts
      .ok (cell, ⟨cell, .iri firstIRI, tm⟩ :: aux1 ++ ⟨cell, .iri restIRI, restTm⟩ :: aux2, ctx3)

end

/-- Modelled from the spec: a subject must be an IRI or a blank node (§3). -/
def validSubject : Term → Bool
  | .iri _ => true
  | .blank _ => true
  | .literal _ _ _ => false

/-- Modelled from the spec: a predicate must be an IRI, never a blank node
or a literal (§3). -/
def validPred : Term → Bool
  | .iri _ => true
  | _ => false

/-- Modelled from the spec: attaching the enclosing graph name to a triple
to form a quad (§3). -/
def attachGraph (g : Option Term) (t : Tri) : Quad :=
  ⟨t.subj, t.pred, t.obj, g⟩

/-- Modelled from the spec: insertion of a list of quads into the store,
each statement inserted immediately via `add` (§4.2). -/
def addAll (st : Store) (qs : List Quad) : Store :=
  qs.foldl (fun s q => (s.add q).2) st

/-- Modelled from the spec: processing of one statement (§4.2) — a
directive updates the context for the remainder of the document only; a
triple statement resolves its terms against the current context, checks the
positional term constraints, and inserts the resulting quads immediately. -/
def processStmt (ctx : Ctx) (st : Store) : Stmt → Except Err (Ctx × Store)
  | .prefixDecl p i =>
      (resolveIRI ctx i).map (fun ri => ({ ctx with prefixTable := (p, ri) :: ctx.prefixTable }, st))
  | .baseDecl i =>
      (resolveIRI ctx i).map (fun ri => ({ ctx with base := some ri }, st))
  | .triple s p o g => do
      let (ts, aux1, ctx1) ← resolveTerm ctx s
      let (tp, aux2, ctx2) ← resolveTerm ctx1 p
      let (to_, aux3, ctx3) ← resolveTerm ctx2 o
      let (tg, ctx4) ←
        match g with
        | none => Except.ok ((none : Option Term), ctx3)
        | some gr => do
            let (t, _, c) ← resolveTerm ctx3 gr
            if validSubject t then Except.ok (some t, c) else Except.error Err.synError
      if validSubject ts ∧ validPred tp then
        .ok (ctx4, addAll st ((⟨ts, tp, to_⟩ :: (aux1 ++ aux2 ++ aux3)).map (attachGraph tg)))
      else
        .error .synError

/-- Modelled from the spec: left-to-right, single-pass processing of the
statements of one document (§4.2), threading the context and the store. -/
def processStmts (ctx : Ctx) (st : Store) : List Stmt → Except Err (Ctx × Store)
  | [] => .ok (ctx, st)
  | s :: rest => do
      let (ctx1, st1) ← processStmt ctx st s
      processStmts ctx1 st1 rest

/-- Modelled from the spec: parsing one document (§4.2) — all-or-nothing:
the quad store is returned only when every statement parsed; any failure
yields the error and no partial graph. -/
def parseDoc (doc : List Stmt) : Except Err Store :=
  (processStmts Ctx.init Store.empty doc).map (fun r => r.2)

/-- The quads a caller obtains from a parse result: a failed parse hands
back no quads at all. -/
def resultQuads : Except Err Store → List Quad
  | .ok st => st.quads
  | .error _ => []

/-- Decoded numeric value of a decimal digit string, the left inverse used
to show the blank-node labels of distinct identities are distinct. -/
def decVal (cs : List Char) : Nat :=
  cs.foldl (fun a c => a * 10 + digitVal c) 0

/-- Modelled from the spec: the serializer's output for one term, read back
as the raw term of the emitted N-Quads line (§4.4): a fully-expanded IRIREF,
the rewritten blank-node label, or the escaped literal; the lexer's
tokenization of the line is taken as faithful. -/
def termToRTerm : Term → RTerm
  | .iri s => .iriRef s
  | .blank n => .blankLabel (blankLabelOf n)
  | .literal v lang dt => .lit v lang dt

/-- Modelled from the spec: the serializer's output for one quad, read back
as the statement of the emitted N-Quads line (§4.4). -/
def quadToStmt (q : Quad) : Stmt :=
  .triple (termToRTerm q.subj) (termToRTerm q.pred) (termToRTerm q.obj)
    (q.graph.map termToRTerm)

/-- Modelled from the spec: the serializer's whole N-Quads output, read back
as the document of statements its lines denote, in canonical order (§4.4). -/
def serializeStmts (st : Store) : List Stmt :=
  st.canonicalQuads.map quadToStmt

/-- Renaming of blank-node identities in a term; IRIs and literals are
untouched. -/
def renameTerm (ρ : Nat → Nat) : Term → Term
  | .iri s => .iri s
  | .blank n => .blank (ρ n)
  | .literal v lang dt => .literal v lang dt

/-- Renaming of blank-node identities in a quad. -/
def renameQuad (ρ : Nat → Nat) (q : Quad) : Quad :=
  ⟨renameTerm ρ q.subj, renameTerm ρ q.pred, renameTerm ρ q.obj,
   q.graph.map (renameTerm ρ)⟩

/-- Modelled from the spec: a stored term is fully resolved (§3) — its IRIs
are absolute, including a literal's datatype IRI. -/
def termWF : Term → Bool
  | .iri s => hasScheme s
  | .blank _ => true
  | .literal _ _ dt =>
      match dt with
      | none => true
      | some d => hasScheme d

/-- Modelled from the spec: a stored quad respects the positional term
constraints of §3 and contains only fully resolved terms. -/
def quadWF (q : Quad) : Bool :=
  validSubject q.subj && validPred q.pred &&
  termWF q.subj && termWF q.pred && termWF q.obj &&
  (match q.graph with
   | none => true
   | some g => validSubject g && termWF g)

/-- Modelled from the spec: a quad store producible by the parser — no
duplicate quads (set semantics, §3) and every quad well formed (§3). -/
def Store.WF (st : Store) : Prop :=
  st.quads.Nodup ∧ ∀ q ∈ st.quads, quadWF q = true

/-- Blank-node identities occurring in a term. -/
def Term.blankIds : Term → List Nat
  | .blank n => [n]
  | _ => []

/-- Blank-node identities occurring in a quad. -/
def Quad.blankIds (q : Quad) : List Nat :=
  q.subj.blankIds ++ q.pred.blankIds ++ q.obj.blankIds ++
  (match q.graph with
   | none => []
   | some g => g.blankIds)

/-- Blank-node identities occurring in a store. -/
def Store.blankIds (st : Store) : List Nat :=
  st.quads.flatMap Quad.blankIds

/-- Embedded from src/setup.py: the keyword arguments passed to the
`setup()` call. -/
structure SetupArgs where
  name : String
  version : String
  description : String
  long_description : String
  keywords : String
  author : String
  author_email : String
  url : String
  license : String
  packages : List String
  include_package_data : Bool
  zip_safe : Bool
  test_suite : String
  install_requires : List String
  scripts : List String
deriving Repr

/-- Embedded from src/setup.py: the `setup()` call.  `pymanticVersion` is
the `version` attribute imported from the `pymantic` package on line 3 and
passed as the `version` keyword on line 19; `readme` is the content of
README.rst read on lines 14–15 and passed as `long_description`. -/
def pymanticSetup (pymanticVersion : String) (readme : String) : SetupArgs where
  name := "pymantic"
  version := pymanticVersion
  description := "Semantic Web and RDF library for Python"
  long_description := readme
  keywords := "RDF N3 Turtle Semantics Web3.0"
  author := "Gavin Carothers, Nick Pilon"
  author_email := "gavin@carothers.name, npilon@gmail.com"
  url := "http://github.com/oreillymedia/pymantic"
  license := "BSD"
  packages := ["pymantic"]
  include_package_data := true
  zip_safe := false
  test_suite := "nose.collector"
  install_requires := ["requests", "lxml", "pytz", "rdflib", "lepl"]
  scripts := ["pymantic/scripts/named_graph_to_nquads", "pymantic/scripts/bnf2html"]

/-- Invariant of the parse-time blank-node label map: every bound identity
is below the counter, and no two labels are bound to the same identity. -/
def labelsWF (ctx : Ctx) : Prop :=
  (∀ pr ∈ ctx.labels, pr.2 < ctx.counter) ∧ (ctx.labels.map Prod.snd).Nodup

/-- One parse context extends another when every label binding of the first
is still in force in the second (labels are never rebound within a parse). -/
def ctxExt (c c' : Ctx) : Prop :=
  ∀ l v, findAssoc l c.labels = some v → findAssoc l c'.labels = some v

/-- The blank-node renaming realized by a parse context: the identity the
context assigned to the serialized label of the original identity `n`. -/
def ctxρ (ctx : Ctx) (n : Nat) : Nat :=
  (findAssoc (blankLabelOf n) ctx.labels).getD 0

/-! ## Theorems -/

/-- C8: quad-store insertion is idempotent and total — `add q` returns true
exactly when `q` was not already present (false on a duplicate), and adding
`q` twice leaves the store, hence its canonical quad sequence, identical to
the store after a single `add q`. -/
theorem store_add_idempotent (st : Store) (q : Quad) :
    ((st.add q).1 = true ↔ q ∉ st.quads) ∧
    (st.add q).2.add q = (false, (st.add q).2) ∧
    ((st.add q).2.add q).2.canonicalQuads = (st.add q).2.canonicalQuads := by
  unfold Store.add Store.containsQ
  by_cases h : q ∈ st.quads <;> simp [h]

/-- C2: the serializer emits exactly one line per stored quad — the lines
are the string forms of a permutation of the store's quads — and the quads
appear in the canonical total order, lexicographic on the (graph, subject,
predicate, object) string forms. -/
theorem serialize_canonical (st : Store) :
    serialize st = st.canonicalQuads.map formatQuad ∧
    st.canonicalQuads.Perm st.quads ∧
    List.Sorted quadLE st.canonicalQuads :=
  ⟨rfl, List.perm_insertionSort quadLE st.quads,
   List.sorted_insertionSort quadLE st.quads⟩

/-- C9: the packaging configuration declares exactly two scripts,
`pymantic/scripts/named_graph_to_nquads` and `pymantic/scripts/bnf2html`,
whatever the package version and README content are. -/
theorem setup_scripts_exactly_two (v r : String) :
    (pymanticSetup v r).scripts =
      ["pymantic/scripts/named_graph_to_nquads", "pymantic/scripts/bnf2html"] ∧
    (pymanticSetup v r).scripts.length = 2 :=
  ⟨rfl, rfl⟩

/-- C10: the version metadata handed to `setup()` is exactly the `version`
attribute imported from the pymantic package, for every value that
attribute may have. -/
theorem setup_version_is_package_version (v r : String) :
    (pymanticSetup v r).version = v :=
  rfl

/-- C5: a prefixed name whose prefix has no prior declaration, or a
relative IRI with no base IRI in scope, makes the parse fail with a fatal
`ResolutionError` — never a silently-empty or guessed IRI. -/
theorem undeclared_prefix_or_no_base_fails (p l P O r : String)
    (hr : hasScheme r = false) :
    parseDoc [.triple (.pname p l) (.iriRef P) (.iriRef O) none]
      = .error .resolutionError ∧
    parseDoc [.triple (.iriRef r) (.iriRef P) (.iriRef O) none]
      = .error .resolutionError := by
  constructor
  · simp [parseDoc, processStmts, processStmt, resolveTerm, resolvePName,
          findAssoc, Ctx.init, Except.map, Except.bind, bind]
  · simp [parseDoc, processStmts, processStmt, resolveTerm, resolveIRI, hr,
          Ctx.init, Except.map, Except.bind, bind]

/-- C5 witness: the theorem applied to the undeclared prefix `ex` and the
relative IRI `rel` from an empty document context. -/
theorem undeclared_prefix_or_no_base_fails_witness :
    hasScheme "rel" = false ∧
    (parseDoc [.triple (.pname "ex" "foo") (.iriRef "http://p")
                 (.iriRef "http://o") none] = .error .resolutionError ∧
     parseDoc [.triple (.iriRef "rel") (.iriRef "http://p")
                 (.iriRef "http://o") none] = .error .resolutionError) :=
  ⟨by decide, undeclared_prefix_or_no_base_fails "ex" "foo" "http://p" "http://o" "rel" (by decide)⟩

/-- C4: within one document a repeated blank-node label denotes one node
identity — two statements on `_:b0` share one subject identity — while two
anonymous `[]` subjects receive two distinct fresh identities. -/
theorem blank_label_shared_anon_fresh (L P O1 O2 : String)
    (hP : hasScheme P = true) (h1 : hasScheme O1 = true)
    (h2 : hasScheme O2 = true) (hne : O1 ≠ O2) :
    (∃ n, parseDoc [.triple (.blankLabel L) (.iriRef P) (.iriRef O1) none,
                    .triple (.blankLabel L) (.iriRef P) (.iriRef O2) none]
        = .ok ⟨[⟨.blank n, .iri P, .iri O1, none⟩,
                ⟨.blank n, .iri P, .iri O2, none⟩]⟩) ∧
    (∃ n1 n2, n1 ≠ n2 ∧
      parseDoc [.triple .anon (.iriRef P) (.iriRef O1) none,
                .triple .anon (.iriRef P) (.iriRef O2) none]
        = .ok ⟨[⟨.blank n1, .iri P, .iri O1, none⟩,
                ⟨.blank n2, .iri P, .iri O2, none⟩]⟩) := by
  refine ⟨⟨0, ?_⟩, 0, 1, by decide, ?_⟩ <;>
    simp [parseDoc, processStmts, processStmt, resolveTerm, resolveIRI,
          lookupLabel, freshBlank, findAssoc, Ctx.init, hP, h1, h2,
          Except.map, Except.bind, bind, validSubject, validPred, addAll,
          Store.add, Store.containsQ, Store.empty, attachGraph, hne,
          Ne.symm hne]

/-- C4 witness: the theorem applied to the spec's example — label `b0`
shared across two statements, then two anonymous subjects. -/
theorem blank_label_shared_anon_fresh_witness :
    (hasScheme "http://p" = true ∧ hasScheme "http://o1" = true ∧
     hasScheme "http://o2" = true ∧ "http://o1" ≠ "http://o2") ∧
    ((∃ n, parseDoc [.triple (.blankLabel "b0") (.iriRef "http://p") (.iriRef "http://o1") none,
                     .triple (.blankLabel "b0") (.iriRef "http://p") (.iriRef "http://o2") none]
        = .ok ⟨[⟨.blank n, .iri "http://p", .iri "http://o1", none⟩,
                ⟨.blank n, .iri "http://p", .iri "http://o2", none⟩]⟩) ∧
     (∃ n1 n2, n1 ≠ n2 ∧
       parseDoc [.triple .anon (.iriRef "http://p") (.iriRef "http://o1") none,
                 .triple .anon (.iriRef "http://p") (.iriRef "http://o2") none]
        = .ok ⟨[⟨.blank n1, .iri "http://p", .iri "http://o1", none⟩,
                ⟨.blank n2, .iri "http://p", .iri "http://o2", none⟩]⟩)) :=
  ⟨⟨by decide, by decide, by decide, by decide⟩,
   blank_label_shared_anon_fresh "b0" "http://p" "http://o1" "http://o2"
     (by decide) (by decide) (by decide) (by decide)⟩

/-- C6: an empty collection `()` parses to the nil IRI constant, and a
collection `( <a> <b> )` in object position desugars into exactly two fresh
blank nodes linked by first/rest predicates terminating in nil, with the two
member terms as the first-values in written order. -/
theorem collection_desugaring (S P a b : String)
    (hS : hasScheme S = true) (hP : hasScheme P = true)
    (ha : hasScheme a = true) (hb : hasScheme b = true) :
    parseDoc [.triple (.iriRef S) (.iriRef P)
                (.collection [.iriRef a, .iriRef b]) none]
      = .ok ⟨[⟨.iri S, .iri P, .blank 0, none⟩,
              ⟨.blank 0, .iri firstIRI, .iri a, none⟩,
              ⟨.blank 0, .iri restIRI, .blank 1, none⟩,
              ⟨.blank 1, .iri firstIRI, .iri b, none⟩,
              ⟨.blank 1, .iri restIRI, .iri nilIRI, none⟩]⟩ ∧
    parseDoc [.triple (.iriRef S) (.iriRef P) (.collection []) none]
      = .ok ⟨[⟨.iri S, .iri P, .iri nilIRI, none⟩]⟩ := by
  constructor <;>
    simp [parseDoc, processStmts, processStmt, resolveTerm, resolveColl,
          resolveIRI, freshBlank, Ctx.init, hS, hP, ha, hb,
          Except.map, Except.bind, bind, validSubject, validPred, addAll,
          Store.add, Store.containsQ, Store.empty, attachGraph,
          firstIRI, restIRI, nilIRI]

/-- C6 witness: the theorem applied to the spec's example collection
`( <http://a> <http://b> )`. -/
theorem collection_desugaring_witness :
    (hasScheme "http://s" = true ∧ hasScheme "http://p" = true ∧
     hasScheme "http://a" = true ∧ hasScheme "http://b" = true) ∧
    (parseDoc [.triple (.iriRef "http://s") (.iriRef "http://p")
                 (.collection [.iriRef "http://a", .iriRef "http://b"]) none]
      = .ok ⟨[⟨.iri "http://s", .iri "http://p", .blank 0, none⟩,
              ⟨.blank 0, .iri firstIRI, .iri "http://a", none⟩,
              ⟨.blank 0, .iri restIRI, .blank 1, none⟩,
              ⟨.blank 1, .iri firstIRI, .iri "http://b", none⟩,
              ⟨.blank 1, .iri restIRI, .iri nilIRI, none⟩]⟩ ∧
     parseDoc [.triple (.iriRef "http://s") (.iriRef "http://p") (.collection []) none]
      = .ok ⟨[⟨.iri "http://s", .iri "http://p", .iri nilIRI, none⟩]⟩) :=
  ⟨⟨by decide, by decide, by decide, by decide⟩,
   collection_desugaring "http://s" "http://p" "http://a" "http://b"
     (by decide) (by decide) (by decide) (by decide)⟩

/-- C3: directive effects are forward-only — a prefix redefinition between
statements S1 and S2 leaves S1 resolved under the earlier binding and
governs S2, and a later `@base` governs only subsequent relative IRIs,
never retroactively. -/
theorem directives_forward_only (p i1 i2 l1 l2 P O b1 b2 r1 r2 : String)
    (hi1 : hasScheme i1 = true) (hi2 : hasScheme i2 = true)
    (hP : hasScheme P = true) (hO : hasScheme O = true)
    (hne : i1 ++ l1 ≠ i2 ++ l2)
    (hb1 : hasScheme b1 = true) (hb2 : hasScheme b2 = true)
    (hr1 : hasScheme r1 = false) (hr2 : hasScheme r2 = false)
    (hne2 : resolveRef b1 r1 ≠ resolveRef b2 r2) :
    parseDoc [.prefixDecl p i1,
              .triple (.pname p l1) (.iriRef P) (.iriRef O) none,
              .prefixDecl p i2,
              .triple (.pname p l2) (.iriRef P) (.iriRef O) none]
      = .ok ⟨[⟨.iri (i1 ++ l1), .iri P, .iri O, none⟩,
              ⟨.iri (i2 ++ l2), .iri P, .iri O, none⟩]⟩ ∧
    parseDoc [.baseDecl b1,
              .triple (.iriRef r1) (.iriRef P) (.iriRef O) none,
              .baseDecl b2,
              .triple (.iriRef r2) (.iriRef P) (.iriRef O) none]
      = .ok ⟨[⟨.iri (resolveRef b1 r1), .iri P, .iri O, none⟩,
              ⟨.iri (resolveRef b2 r2), .iri P, .iri O, none⟩]⟩ := by
  constructor <;>
    simp [parseDoc, processStmts, processStmt, resolveTerm, resolvePName,
          resolveIRI, findAssoc, Ctx.init, hi1, hi2, hP, hO, hb1, hb2,
          hr1, hr2, Except.map, Except.bind, bind, validSubject, validPred,
          addAll, Store.add, Store.containsQ, Store.empty, attachGraph,
          hne, hne2, Ne.symm hne, Ne.symm hne2]

/-- C3 witness: the theorem applied to a prefix `ex` redefined between two
statements and to the spec's base-resolution example
(`<foo>` against `http://example.org/`, then `<bar>` against
`http://example.org/sub/`). -/
theorem directives_forward_only_witness :
    (hasScheme "http://one/" = true ∧ hasScheme "http://two/" = true ∧
     "http://one/" ++ "s" ≠ "http://two/" ++ "s" ∧
     hasScheme "foo" = false ∧ hasScheme "bar" = false ∧
     resolveRef "http://example.org/" "foo" = "http://example.org/foo" ∧
     resolveRef "http://example.org/sub/" "bar" = "http://example.org/sub/bar") ∧
    (parseDoc [.prefixDecl "ex" "http://one/",
               .triple (.pname "ex" "s") (.iriRef "http://p") (.iriRef "http://o") none,
               .prefixDecl "ex" "http://two/",
               .triple (.pname "ex" "s") (.iriRef "http://p") (.iriRef "http://o") none]
      = .ok ⟨[⟨.iri ("http://one/" ++ "s"), .iri "http://p", .iri "http://o", none⟩,
              ⟨.iri ("http://two/" ++ "s"), .iri "http://p", .iri "http://o", none⟩]⟩ ∧
     parseDoc [.baseDecl "http://example.org/",
               .triple (.iriRef "foo") (.iriRef "http://p") (.iriRef "http://o") none,
               .baseDecl "http://example.org/sub/",
               .triple (.iriRef "bar") (.iriRef "http://p") (.iriRef "http://o") none]
      = .ok ⟨[⟨.iri (resolveRef "http://example.org/" "foo"), .iri "http://p", .iri "http://o", none⟩,
              ⟨.iri (resolveRef "http://example.org/sub/" "bar"), .iri "http://p", .iri "http://o", none⟩]⟩) :=
  ⟨⟨by decide, by decide, by decide, by decide, by decide, by decide, by decide⟩,
   directives_forward_only "ex" "http://one/" "http://two/" "s" "s"
     "http://p" "http://o" "http://example.org/" "http://example.org/sub/"
     "foo" "bar" (by decide) (by decide) (by decide) (by decide) (by decide)
     (by decide) (by decide) (by decide) (by decide) (by decide)⟩

/-- Processing a concatenation of statement lists threads the context and
store through the first list and continues with the second. -/
theorem processStmts_append (ctx : Ctx) (st : Store) (l1 l2 : List Stmt) :
    processStmts ctx st (l1 ++ l2) =
      (processStmts ctx st l1).bind (fun r => processStmts r.1 r.2 l2) := by
  induction l1 generalizing ctx st with
  | nil => simp [processStmts, Except.bind]
  | cons s rest ih =>
      simp only [List.cons_append, processStmts]
      cases h : processStmt ctx st s with
      | error e => simp [Except.bind, bind, h]
      | ok r => simp [Except.bind, bind, h, ih]

/-- C7: parsing one document is all-or-nothing — if any statement fails,
the whole parse reports that error and the caller receives no quads from
the document, even when earlier statements had already been inserted. -/
theorem parse_all_or_nothing (pre : List Stmt) (s : Stmt) (post : List Stmt)
    (ctx1 : Ctx) (st1 : Store) (e : Err)
    (hpre : processStmts Ctx.init Store.empty pre = .ok (ctx1, st1))
    (hs : processStmt ctx1 st1 s = .error e) :
    parseDoc (pre ++ s :: post) = .error e ∧
    resultQuads (parseDoc (pre ++ s :: post)) = [] := by
  have h : processStmts Ctx.init Store.empty (pre ++ s :: post) = .error e := by
    rw [processStmts_append, hpre]
    simp [Except.bind, bind, processStmts, hs]
  exact ⟨by simp [parseDoc, h, Except.map],
         by simp [parseDoc, h, Except.map, resultQuads]⟩

/-- C7 witness: a document whose first statement parses (inserting one
quad) and whose second statement hits an undeclared prefix — the caller
receives the error and an empty quad list, not the partial graph. -/
theorem parse_all_or_nothing_witness :
    processStmts Ctx.init Store.empty
        [.triple (.iriRef "http://s") (.iriRef "http://p") (.iriRef "http://o") none]
      = .ok (Ctx.init,
             ⟨[⟨.iri "http://s", .iri "http://p", .iri "http://o", none⟩]⟩) ∧
    processStmt Ctx.init
        ⟨[⟨.iri "http://s", .iri "http://p", .iri "http://o", none⟩]⟩
        (.triple (.pname "ex" "x") (.iriRef "http://p") (.iriRef "http://o") none)
      = .error .resolutionError ∧
    (parseDoc ([.triple (.iriRef "http://s") (.iriRef "http://p") (.iriRef "http://o") none] ++
               (.triple (.pname "ex" "x") (.iriRef "http://p") (.iriRef "http://o") none) ::
               ([] : List Stmt))
       = .error .resolutionError ∧
     resultQuads
       (parseDoc ([.triple (.iriRef "http://s") (.iriRef "http://p") (.iriRef "http://o") none] ++
                  (.triple (.pname "ex" "x") (.iriRef "http://p") (.iriRef "http://o") none) ::
                  ([] : List Stmt))) = []) :=
  ⟨rfl, rfl,
   parse_all_or_nothing
     [.triple (.iriRef "http://s") (.iriRef "http://p") (.iriRef "http://o") none]
     (.triple (.pname "ex" "x") (.iriRef "http://p") (.iriRef "http://o") none)
     [] Ctx.init
     ⟨[⟨.iri "http://s", .iri "http://p", .iri "http://o", none⟩]⟩
     .resolutionError rfl rfl⟩

/-- Decoding a digit character produced from a digit below ten recovers the
digit. -/
theorem digitVal_digitChar (d : Nat) (h : d < 10) :
    digitVal (digitChar d) = d := by
  interval_cases d <;> decide

/-- Decoding after appending one digit character multiplies by ten and adds
its value. -/
theorem decVal_append (l : List Char) (c : Char) :
    decVal (l ++ [c]) = decVal l * 10 + digitVal c := by
  simp [decVal, List.foldl_append]

/-- With enough fuel, decoding the fuelled digit string recovers the
number. -/
theorem decVal_decDigitsAux (fuel : Nat) :
    ∀ n, n < 10 ^ fuel → decVal (decDigitsAux fuel n) = n := by
  induction fuel with
  | zero =>
      intro n hn
      simp at hn
      simp [hn, decDigitsAux, decVal]
  | succ fuel ih =>
      intro n hn
      by_cases h : n < 10
      · simp [decDigitsAux, h, decVal, digitVal_digitChar n h]
      · have hdiv : n / 10 < 10 ^ fuel := by
          rw [Nat.div_lt_iff_lt_mul (by norm_num)]
          calc n < 10 ^ (fuel + 1) := hn
            _ = 10 ^ fuel * 10 := by ring
        rw [decDigitsAux, if_neg h, decVal_append, ih (n / 10) hdiv,
            digitVal_digitChar (n % 10) (Nat.mod_lt n (by norm_num))]
        omega

/-- Decoding the decimal digit string of a number recovers the number. -/
theorem decVal_decDigits (n : Nat) : decVal (decDigits n) = n := by
  have h1 : n < 10 ^ n := Nat.lt_pow_self (by norm_num) n
  have h2 : (10:Nat) ^ n ≤ 10 ^ (n + 1) :=
    Nat.pow_le_pow_right (by norm_num) (Nat.le_succ n)
  exact decVal_decDigitsAux (n + 1) n (lt_of_lt_of_le h1 h2)

/-- The serializer's blank-node labels are unique: distinct identities get
distinct labels. -/
theorem blankLabelOf_injective : Function.Injective blankLabelOf := by
  intro m n h
  have hd : decDigits m = decDigits n := by
    have := congrArg String.data h
    simpa [blankLabelOf] using this
  have := congrArg decVal hd
  simpa [decVal_decDigits] using this

/-- A successful association lookup returns a pair of the list. -/
theorem findAssoc_mem {α : Type} (k : String) (v : α) :
    ∀ l : List (String × α), findAssoc k l = some v → (k, v) ∈ l := by
  intro l
  induction l with
  | nil => intro h; simp [findAssoc] at h
  | cons p rest ih =>
      intro h
      by_cases hk : p.1 = k
      · rw [show p = (p.1, p.2) from rfl, findAssoc, if_pos hk] at h
        simp only [Option.some.injEq] at h
        have hp : p = (k, v) := by
          cases p
          simp_all
        rw [hp]
        exact List.mem_cons_self _ _
      · rw [show p = (p.1, p.2) from rfl, findAssoc, if_neg hk] at h
        exact List.mem_cons_of_mem _ (ih h)

/-- When the bound identities are pairwise distinct, two labels bound to the
same identity are the same label. -/
theorem assoc_value_nodup {l : List (String × Nat)}
    (hnd : (l.map Prod.snd).Nodup) {k1 k2 : String} {v : Nat}
    (h1 : (k1, v) ∈ l) (h2 : (k2, v) ∈ l) : k1 = k2 := by
  induction l with
  | nil => simp at h1
  | cons p rest ih =>
      simp only [List.map_cons, List.nodup_cons] at hnd
      rcases List.mem_cons.mp h1 with h1' | h1' <;>
        rcases List.mem_cons.mp h2 with h2' | h2'
      · exact congrArg Prod.fst (h1'.trans h2'.symm)
      · exfalso
        apply hnd.1
        rw [← h1']
        exact List.mem_map.mpr ⟨(k2, v), h2', rfl⟩
      · exfalso
        apply hnd.1
        rw [← h2']
        exact List.mem_map.mpr ⟨(k1, v), h1', rfl⟩
      · exact ih hnd.2 h1' h2'

/-- Context extension is reflexive. -/
theorem ctxExt_refl (c : Ctx) : ctxExt c c := fun _ _ h => h

/-- Context extension is transitive. -/
theorem ctxExt_trans {a b c : Ctx} (h1 : ctxExt a b) (h2 : ctxExt b c) :
    ctxExt a c := fun l v h => h2 l v (h1 l v h)

/-- A context extension keeps every already-bound label bound. -/
theorem ctxExt_isSome {c c' : Ctx} (h : ctxExt c c') {l : String}
    (hs : (findAssoc l c.labels).isSome) :
    (findAssoc l c'.labels).isSome := by
  obtain ⟨v, hv⟩ := Option.isSome_iff_exists.mp hs
  exact Option.isSome_iff_exists.mpr ⟨v, h l v hv⟩

/-- Resolving a labeled blank node yields a blank identity, preserves the
label-map invariant, extends the context, and leaves the label bound to the
returned identity; base and prefix table are untouched. -/
theorem lookupLabel_spec (ctx : Ctx) (l : String) (h : labelsWF ctx) :
    ∃ m ctx', lookupLabel ctx l = (.blank m, ctx') ∧ labelsWF ctx' ∧
      ctxExt ctx ctx' ∧ findAssoc l ctx'.labels = some m ∧
      ctx'.base = ctx.base ∧ ctx'.prefixTable = ctx.prefixTable := by
  cases hf : findAssoc l ctx.labels with
  | some n =>
      exact ⟨n, ctx, by rw [lookupLabel, hf], h, ctxExt_refl ctx, hf, rfl, rfl⟩
  | none =>
      refine ⟨ctx.counter,
              { ctx with labels := (l, ctx.counter) :: ctx.labels,
                         counter := ctx.counter + 1 },
              by rw [lookupLabel, hf], ?_, ?_, ?_, rfl, rfl⟩
      · constructor
        · intro pr hpr
          rcases List.mem_cons.mp hpr with h' | h'
          · rw [h']; exact Nat.lt_succ_self _
          · exact Nat.lt_succ_of_lt (h.1 pr h')
        · simp only [List.map_cons, List.nodup_cons]
          refine ⟨fun hc => ?_, h.2⟩
          obtain ⟨pr, hpr, hv⟩ := List.mem_map.mp hc
          exact absurd (h.1 pr hpr) (by rw [hv]; exact lt_irrefl _)
      · intro l' v hv
        have hne : l ≠ l' := fun he => by rw [he] at hf; rw [hf] at hv; cases hv
        show findAssoc l' ((l, ctx.counter) :: ctx.labels) = some v
        rw [findAssoc, if_neg hne]
        exact hv
      · show findAssoc l ((l, ctx.counter) :: ctx.labels) = some ctx.counter
        rw [findAssoc, if_pos rfl]

/-- Within one well-formed context, the realized renaming is injective on
the identities whose labels are bound. -/
theorem ctxρ_injOn (ctx : Ctx) (h : labelsWF ctx) (m n : Nat)
    (hm : (findAssoc (blankLabelOf m) ctx.labels).isSome)
    (hn : (findAssoc (blankLabelOf n) ctx.labels).isSome)
    (he : ctxρ ctx m = ctxρ ctx n) : m = n := by
  obtain ⟨vm, hvm⟩ := Option.isSome_iff_exists.mp hm
  obtain ⟨vn, hvn⟩ := Option.isSome_iff_exists.mp hn
  have hv : vm = vn := by
    have h1 : ctxρ ctx m = vm := by rw [ctxρ, hvm]; rfl
    have h2 : ctxρ ctx n = vn := by rw [ctxρ, hvn]; rfl
    rw [← h1, ← h2, he]
  apply blankLabelOf_injective
  exact assoc_value_nodup h.2 (findAssoc_mem _ _ _ hvm)
    (hv ▸ findAssoc_mem _ _ _ hvn)

/-- Renaming through two contexts agrees on a term whose blank identities
are already bound in the smaller context. -/
theorem renameTerm_ext {c c' : Ctx} (hext : ctxExt c c') (t : Term)
    (hb : ∀ n ∈ t.blankIds, (findAssoc (blankLabelOf n) c.labels).isSome) :
    renameTerm (ctxρ c) t = renameTerm (ctxρ c') t := by
  cases t with
  | iri s => rfl
  | blank n =>
      have hs := hb n (by simp [Term.blankIds])
      obtain ⟨v, hv⟩ := Option.isSome_iff_exists.mp hs
      have hv' := hext _ _ hv
      simp [renameTerm, ctxρ, hv, hv']
  | literal v lang dt => rfl

/-- Renaming through two contexts agrees on a quad whose blank identities
are already bound in the smaller context. -/
theorem renameQuad_ext {c c' : Ctx} (hext : ctxExt c c') (q : Quad)
    (hb : ∀ n ∈ q.blankIds, (findAssoc (blankLabelOf n) c.labels).isSome) :
    renameQuad (ctxρ c) q = renameQuad (ctxρ c') q := by
  have hs : ∀ n ∈ q.subj.blankIds, (findAssoc (blankLabelOf n) c.labels).isSome :=
    fun n hn => hb n (by simp [Quad.blankIds, hn])
  have hp : ∀ n ∈ q.pred.blankIds, (findAssoc (blankLabelOf n) c.labels).isSome :=
    fun n hn => hb n (by simp [Quad.blankIds, hn])
  have ho : ∀ n ∈ q.obj.blankIds, (findAssoc (blankLabelOf n) c.labels).isSome :=
    fun n hn => hb n (by simp [Quad.blankIds, hn])
  cases hg : q.graph with
  | none =>
      simp [renameQuad, renameTerm_ext hext q.subj hs, renameTerm_ext hext q.pred hp,
            renameTerm_ext hext q.obj ho, hg]
  | some g =>
      have hgg : ∀ n ∈ g.blankIds, (findAssoc (blankLabelOf n) c.labels).isSome :=
        fun n hn => hb n (by simp [Quad.blankIds, hg, hn])
      simp [renameQuad, renameTerm_ext hext q.subj hs, renameTerm_ext hext q.pred hp,
            renameTerm_ext hext q.obj ho, hg, renameTerm_ext hext g hgg]

/-- Renaming preserves which constructor a term uses in subject position. -/
theorem validSubject_rename (ρ : Nat → Nat) (t : Term) :
    validSubject (renameTerm ρ t) = validSubject t := by
  cases t <;> rfl

/-- Renaming preserves which constructor a term uses in predicate
position. -/
theorem validPred_rename (ρ : Nat → Nat) (t : Term) :
    validPred (renameTerm ρ t) = validPred t := by
  cases t <;> rfl

/-- Resolving the serialized form of a well-formed stored term succeeds,
yields that term with its blank identity renamed by the extended context,
produces no auxiliary triples, and binds the term's blank labels. -/
theorem resolveTerm_ground (ctx : Ctx) (t : Term) (hWF : termWF t = true)
    (h : labelsWF ctx) :
    ∃ ctx', resolveTerm ctx (termToRTerm t)
        = .ok (renameTerm (ctxρ ctx') t, [], ctx') ∧
      labelsWF ctx' ∧ ctxExt ctx ctx' ∧
      (∀ n ∈ t.blankIds, (findAssoc (blankLabelOf n) ctx'.labels).isSome) := by
  cases t with
  | iri s =>
      have hs : hasScheme s = true := by simpa [termWF] using hWF
      exact ⟨ctx, by simp [termToRTerm, resolveTerm, resolveIRI, hs, renameTerm,
                          Except.map],
             h, ctxExt_refl ctx, by simp [Term.blankIds]⟩
  | blank n =>
      obtain ⟨m, ctx', heq, hwf', hext, hfind, _, _⟩ :=
        lookupLabel_spec ctx (blankLabelOf n) h
      refine ⟨ctx', ?_, hwf', hext, ?_⟩
      · simp [termToRTerm, resolveTerm, heq, renameTerm, ctxρ, hfind]
      · intro k hk
        simp only [Term.blankIds, List.mem_singleton] at hk
        rw [hk, hfind]
        rfl
  | literal v lang dt =>
      cases dt with
      | none =>
          exact ⟨ctx, by simp [termToRTerm, resolveTerm, renameTerm],
                 h, ctxExt_refl ctx, by simp [Term.blankIds]⟩
      | some d =>
          have hs : hasScheme d = true := by simpa [termWF] using hWF
          exact ⟨ctx, by simp [termToRTerm, resolveTerm, resolveIRI, hs,
                              renameTerm, Except.map],
                 h, ctxExt_refl ctx, by simp [Term.blankIds]⟩

/-- Processing the serialized statement of a well-formed quad succeeds and
inserts exactly that quad with its blank identities renamed by the final
context, which binds all of the quad's blank labels. -/
theorem processStmt_quadToStmt (ctx : Ctx) (st : Store) (q : Quad)
    (hq : quadWF q = true) (h : labelsWF ctx) :
    ∃ ctx', processStmt ctx st (quadToStmt q)
        = .ok (ctx', (st.add (renameQuad (ctxρ ctx') q)).2) ∧
      labelsWF ctx' ∧ ctxExt ctx ctx' ∧
      (∀ n ∈ q.blankIds, (findAssoc (blankLabelOf n) ctx'.labels).isSome) := by
  simp only [quadWF, Bool.and_eq_true] at hq
  obtain ⟨⟨⟨⟨⟨hvs, hvp⟩, hws⟩, hwp⟩, hwo⟩, hwg⟩ := hq
  obtain ⟨c1, e1, w1, x1, b1⟩ := resolveTerm_ground ctx q.subj hws h
  obtain ⟨c2, e2, w2, x2, b2⟩ := resolveTerm_ground c1 q.pred hwp w1
  obtain ⟨c3, e3, w3, x3, b3⟩ := resolveTerm_ground c2 q.obj hwo w2
  cases hg : q.graph with
  | none =>
      refine ⟨c3, ?_, w3, ctxExt_trans x1 (ctxExt_trans x2 x3), ?_⟩
      · have hsubj : renameTerm (ctxρ c1) q.subj = renameTerm (ctxρ c3) q.subj :=
          renameTerm_ext (ctxExt_trans x2 x3) q.subj b1
        have hpred : renameTerm (ctxρ c2) q.pred = renameTerm (ctxρ c3) q.pred :=
          renameTerm_ext x3 q.pred b2
        simp only [quadToStmt, hg, Option.map_none', processStmt, e1, e2, e3,
                   Except.bind, bind]
        simp [validSubject_rename, validPred_rename, hvs, hvp, addAll,
              attachGraph, renameQuad, hsubj, hpred, hg]
      · intro n hn
        simp only [Quad.blankIds, hg, List.append_nil, List.mem_append] at hn
        rcases hn with (hn | hn) | hn
        · exact ctxExt_isSome (ctxExt_trans x2 x3) (b1 n hn)
        · exact ctxExt_isSome x3 (b2 n hn)
        · exact b3 n hn
  | some g =>
      have hvg : validSubject g = true ∧ termWF g = true := by
        rw [hg] at hwg
        simpa [Bool.and_eq_true] using hwg
      obtain ⟨c4, e4, w4, x4, b4⟩ := resolveTerm_ground c3 g hvg.2 w3
      refine ⟨c4, ?_, w4,
              ctxExt_trans x1 (ctxExt_trans x2 (ctxExt_trans x3 x4)), ?_⟩
      · have hsubj : renameTerm (ctxρ c1) q.subj = renameTerm (ctxρ c4) q.subj :=
          renameTerm_ext (ctxExt_trans x2 (ctxExt_trans x3 x4)) q.subj b1
        have hpred : renameTerm (ctxρ c2) q.pred = renameTerm (ctxρ c4) q.pred :=
          renameTerm_ext (ctxExt_trans x3 x4) q.pred b2
        have hobj : renameTerm (ctxρ c3) q.obj = renameTerm (ctxρ c4) q.obj :=
          renameTerm_ext x4 q.obj b3
        simp only [quadToStmt, hg, Option.map_some', processStmt, e1, e2, e3, e4,
                   Except.bind, bind]
        simp [validSubject_rename, validPred_rename, hvs, hvp, hvg.1, addAll,
              attachGraph, renameQuad, hsubj, hpred, hobj, hg]
      · intro n hn
        simp only [Quad.blankIds, hg, List.mem_append] at hn
        rcases hn with ((hn | hn) | hn) | hn
        · exact ctxExt_isSome (ctxExt_trans x2 (ctxExt_trans x3 x4)) (b1 n hn)
        · exact ctxExt_isSome (ctxExt_trans x3 x4) (b2 n hn)
        · exact ctxExt_isSome x4 (b3 n hn)
        · exact b4 n hn

/-- Unfolding step of `addAll`. -/
theorem addAll_cons (st : Store) (x : Quad) (l : List Quad) :
    addAll st (x :: l) = addAll (st.add x).2 l := rfl

/-- Inserting a list of quads that stays duplicate-free appends it to the
store verbatim. -/
theorem addAll_nodup : ∀ (l : List Quad) (st : Store),
    (st.quads ++ l).Nodup → (addAll st l).quads = st.quads ++ l := by
  intro l
  induction l with
  | nil => intro st _; simp [addAll]
  | cons x rest ih =>
      intro st h
      have hx : x ∉ st.quads := by
        rw [List.nodup_append] at h
        intro hmem
        exact h.2.2 hmem (List.mem_cons_self x rest)
      rw [addAll_cons,
          show (st.add x).2 = ⟨st.quads ++ [x]⟩ by
            simp [Store.add, Store.containsQ, hx],
          ih ⟨st.quads ++ [x]⟩ (by simpa using h)]
      simp

/-- Processing the serialized statements of a list of well-formed quads
succeeds and inserts exactly those quads renamed by the final context. -/
theorem processStmts_quadToStmts (qs : List Quad) :
    ∀ ctx st, (∀ q ∈ qs, quadWF q = true) → labelsWF ctx →
    ∃ ctxF, processStmts ctx st (qs.map quadToStmt)
        = .ok (ctxF, addAll st (qs.map (renameQuad (ctxρ ctxF)))) ∧
      labelsWF ctxF ∧ ctxExt ctx ctxF ∧
      (∀ n ∈ qs.flatMap Quad.blankIds,
        (findAssoc (blankLabelOf n) ctxF.labels).isSome) := by
  induction qs with
  | nil =>
      intro ctx st _ h
      exact ⟨ctx, by simp [processStmts, addAll], h, ctxExt_refl ctx, by simp⟩
  | cons q rest ih =>
      intro ctx st hWF h
      obtain ⟨c1, e1, w1, x1, b1⟩ :=
        processStmt_quadToStmt ctx st q (hWF q (List.mem_cons_self q rest)) h
      obtain ⟨cF, eF, wF, xF, bF⟩ :=
        ih c1 ((st.add (renameQuad (ctxρ c1) q)).2)
          (fun p hp => hWF p (List.mem_cons_of_mem q hp)) w1
      refine ⟨cF, ?_, wF, ctxExt_trans x1 xF, ?_⟩
      · have hq : renameQuad (ctxρ c1) q = renameQuad (ctxρ cF) q :=
          renameQuad_ext xF q b1
        simp only [List.map_cons, processStmts, e1, Except.bind, bind, eF]
        rw [hq, addAll_cons]
      · intro n hn
        simp only [List.flatMap_cons, List.mem_append] at hn
        rcases hn with hn | hn
        · exact ctxExt_isSome xF (b1 n hn)
        · exact bF n hn

/-- A blank-identity renaming that is injective on the identities of two
terms is injective on the terms themselves. -/
theorem renameTerm_inj_on {ρ : Nat → Nat} {S : List Nat}
    (hinj : ∀ m ∈ S, ∀ n ∈ S, ρ m = ρ n → m = n) {t1 t2 : Term}
    (h1 : ∀ n ∈ t1.blankIds, n ∈ S) (h2 : ∀ n ∈ t2.blankIds, n ∈ S)
    (he : renameTerm ρ t1 = renameTerm ρ t2) : t1 = t2 := by
  cases t1 with
  | blank m =>
      cases t2 with
      | blank n =>
          simp only [renameTerm, Term.blank.injEq] at he ⊢
          exact hinj m (h1 m (by simp [Term.blankIds])) n
            (h2 n (by simp [Term.blankIds])) he
      | iri s => simp [renameTerm] at he
      | literal v l d => simp [renameTerm] at he
  | iri s =>
      cases t2 with
      | iri s2 => simpa [renameTerm] using he
      | blank n => simp [renameTerm] at he
      | literal v l d => simp [renameTerm] at he
  | literal v l d =>
      cases t2 with
      | literal v2 l2 d2 => simpa [renameTerm] using he
      | blank n => simp [renameTerm] at he
      | iri s => simp [renameTerm] at he

/-- A blank-identity renaming that is injective on the identities of two
quads is injective on the quads themselves. -/
theorem renameQuad_inj_on {ρ : Nat → Nat} {S : List Nat}
    (hinj : ∀ m ∈ S, ∀ n ∈ S, ρ m = ρ n → m = n) {q1 q2 : Quad}
    (h1 : ∀ n ∈ q1.blankIds, n ∈ S) (h2 : ∀ n ∈ q2.blankIds, n ∈ S)
    (he : renameQuad ρ q1 = renameQuad ρ q2) : q1 = q2 := by
  simp only [renameQuad, Quad.mk.injEq] at he
  obtain ⟨hs, hp, ho, hg⟩ := he
  have h1s : ∀ n ∈ q1.subj.blankIds, n ∈ S :=
    fun n hn => h1 n (by simp [Quad.blankIds, hn])
  have h2s : ∀ n ∈ q2.subj.blankIds, n ∈ S :=
    fun n hn => h2 n (by simp [Quad.blankIds, hn])
  have h1p : ∀ n ∈ q1.pred.blankIds, n ∈ S :=
    fun n hn => h1 n (by simp [Quad.blankIds, hn])
  have h2p : ∀ n ∈ q2.pred.blankIds, n ∈ S :=
    fun n hn => h2 n (by simp [Quad.blankIds, hn])
  have h1o : ∀ n ∈ q1.obj.blankIds, n ∈ S :=
    fun n hn => h1 n (by simp [Quad.blankIds, hn])
  have h2o : ∀ n ∈ q2.obj.blankIds, n ∈ S :=
    fun n hn => h2 n (by simp [Quad.blankIds, hn])
  have hgeq : q1.graph = q2.graph := by
    cases hg1 : q1.graph with
    | none =>
        cases hg2 : q2.graph with
        | none => rfl
        | some g2 => rw [hg1, hg2] at hg; simp at hg
    | some g1 =>
        cases hg2 : q2.graph with
        | none => rw [hg1, hg2] at hg; simp at hg
        | some g2 =>
            rw [hg1, hg2] at hg
            simp only [Option.map_some', Option.some.injEq] at hg
            have e : g1 = g2 :=
              renameTerm_inj_on hinj
                (fun n hn => h1 n (by simp [Quad.blankIds, hg1, hn]))
                (fun n hn => h2 n (by simp [Quad.blankIds, hg2, hn])) hg
            rw [e]
  have e1 := renameTerm_inj_on hinj h1s h2s hs
  have e2 := renameTerm_inj_on hinj h1p h2p hp
  have e3 := renameTerm_inj_on hinj h1o h2o ho
  cases q1
  cases q2
  simp_all

/-- C1: for every quad store satisfying the parser's stored-term invariants
(set semantics and fully resolved, position-correct terms), re-parsing the
serializer's N-Quads output succeeds and yields a store whose quads are
exactly the original quads under an injective renaming of blank-node
identities — graph isomorphism, with label equality not guaranteed. -/
theorem parse_serialize_roundtrip (st : Store) (h : st.WF) :
    ∃ ρ : Nat → Nat, ∃ st' : Store,
      parseDoc (serializeStmts st) = .ok st' ∧
      (∀ m ∈ st.blankIds, ∀ n ∈ st.blankIds, ρ m = ρ n → m = n) ∧
      st'.quads.Perm (st.quads.map (renameQuad ρ)) := by
  obtain ⟨hnd, hwf⟩ := h
  have hperm : st.canonicalQuads.Perm st.quads :=
    List.perm_insertionSort quadLE st.quads
  have hndc : st.canonicalQuads.Nodup := hperm.nodup_iff.mpr hnd
  have hwfc : ∀ q ∈ st.canonicalQuads, quadWF q = true :=
    fun q hq => hwf q (hperm.mem_iff.mp hq)
  have hinit : labelsWF Ctx.init := ⟨by simp [Ctx.init], by simp [Ctx.init]⟩
  obtain ⟨cF, eF, wF, _, bF⟩ :=
    processStmts_quadToStmts st.canonicalQuads Ctx.init Store.empty hwfc hinit
  have hinj : ∀ m ∈ st.canonicalQuads.flatMap Quad.blankIds,
      ∀ n ∈ st.canonicalQuads.flatMap Quad.blankIds,
      ctxρ cF m = ctxρ cF n → m = n :=
    fun m hm n hn he => ctxρ_injOn cF wF m n (bF m hm) (bF n hn) he
  have hids : ∀ n, n ∈ st.blankIds → n ∈ st.canonicalQuads.flatMap Quad.blankIds := by
    intro n hn
    simp only [Store.blankIds, List.mem_flatMap] at hn ⊢
    obtain ⟨q, hq, hqn⟩ := hn
    exact ⟨q, hperm.mem_iff.mpr hq, hqn⟩
  refine ⟨ctxρ cF, addAll Store.empty (st.canonicalQuads.map (renameQuad (ctxρ cF))),
          ?_, ?_, ?_⟩
  · simp only [parseDoc, serializeStmts]
    rw [eF]
    rfl
  · intro m hm n hn he
    exact hinj m (hids m hm) n (hids n hn) he
  · have hmapnd : (st.canonicalQuads.map (renameQuad (ctxρ cF))).Nodup := by
      refine List.Nodup.map_on ?_ hndc
      intro q1 hq1 q2 hq2 he
      exact renameQuad_inj_on hinj
        (fun n hn => List.mem_flatMap.mpr ⟨q1, hq1, hn⟩)
        (fun n hn => List.mem_flatMap.mpr ⟨q2, hq2, hn⟩) he
    have heq : (addAll Store.empty (st.canonicalQuads.map (renameQuad (ctxρ cF)))).quads
        = st.canonicalQuads.map (renameQuad (ctxρ cF)) := by
      have := addAll_nodup (st.canonicalQuads.map (renameQuad (ctxρ cF)))
        Store.empty (by simpa [Store.empty] using hmapnd)
      simpa [Store.empty] using this
    rw [heq]
    exact hperm.map (renameQuad (ctxρ cF))

/-- C1 witness: a one-quad store whose blank node has identity 5 round-trips
through serialization — the parse succeeds and yields the store with the
blank renamed. -/
theorem parse_serialize_roundtrip_witness :
    Store.WF ⟨[⟨.blank 5, .iri "http://p", .iri "http://o", none⟩]⟩ ∧
    (∃ ρ : Nat → Nat, ∃ st' : Store,
      parseDoc (serializeStmts ⟨[⟨.blank 5, .iri "http://p", .iri "http://o", none⟩]⟩)
        = .ok st' ∧
      (∀ m ∈ Store.blankIds ⟨[⟨.blank 5, .iri "http://p", .iri "http://o", none⟩]⟩,
       ∀ n ∈ Store.blankIds ⟨[⟨.blank 5, .iri "http://p", .iri "http://o", none⟩]⟩,
         ρ m = ρ n → m = n) ∧
      st'.quads.Perm
        ((Store.quads ⟨[⟨.blank 5, .iri "http://p", .iri "http://o", none⟩]⟩).map
          (renameQuad ρ))) :=
  ⟨⟨by decide, by decide⟩,
   parse_serialize_roundtrip ⟨[⟨.blank 5, .iri "http://p", .iri "http://o", none⟩]⟩
     ⟨by decide, by decide⟩⟩

end Pymantic
